import Mathlib

/-!
Verification development for the GMTAUXOneKeyBuild GPU control-channel layer.

The Go sources under `src/gpu` and `src/ui` are shallowly embedded below:
machine integers (`uint32`, `int32`, `byte`) become `Nat`/`Int` with explicit
`% 2^w` where overflow matters, Go `error` values become the inductive
`GoErr`, fallible functions return `Except`/`Option`, and native (syscall)
primitives become explicit oracle parameters.  Loops that issue native calls
are instrumented to also return the list of calls they performed, so that
call counts and call arguments can be stated as theorems.
-/

/-- Embedding of Go `error` values used by the `gpu` package.
`noDriver` is the `ErrNoDriver` sentinel, `notImplemented` is
`ErrNotImplemented`, `msg s` is an error built by `fmt.Errorf` (or
`errors.New`) with message `s`, and `join a b` is `errors.Join(a, b)`
with both arguments non-nil (`src/gpu/driver.go`). -/
inductive GoErr where
  | noDriver : GoErr
  | notImplemented : GoErr
  | msg : String → GoErr
  | join : GoErr → GoErr → GoErr
deriving DecidableEq, Repr

/-- Embedding of `errors.Is(e, ErrNoDriver)`: `errors.Is` unwraps
`errors.Join` trees and compares against the sentinel. -/
def GoErr.isNoDriver : GoErr → Bool
  | .noDriver => true
  | .join a b => a.isNoDriver || b.isNoDriver
  | _ => false

/-- Message carried by an error (empty for the sentinels and joins; only
used on `msg` errors in the theorems below). -/
def GoErr.message : GoErr → String
  | .msg s => s
  | _ => ""

/-- Embedding of `decodeI2CAddress` (`src/gpu/intel_igfx_windows.go:644`):
`slave := byte(addr & 0x7F); reg := int(addr >> 8)`.  `addr` is a `uint32`;
the mask keeps the result below 2^7 so the `byte` conversion never
truncates, and `addr >> 8` fits an `int`. -/
def decodeI2CAddress (addr : Nat) : Nat × Nat :=
  (addr &&& 0x7F, addr >>> 8)

/-! ## Provider registry and driver selection (`src/gpu/driver.go`) -/

/-- Embedding of `providerEntry` (`src/gpu/driver.go:29`): a registered
provider name (lower-cased by `registerProviderNamed`) together with its
factory.  Factories are pure in the embedding: `fn` is the fixed outcome
the factory produces, a driver value of type `α` or an error. -/
structure ProviderEntry (α : Type) where
  name : String
  fn : Except GoErr α

/-- One step of the error accumulation shared by `Detect` and
`DetectByName`: `joined == nil` takes the error as is, otherwise
`errors.Join(joined, err)`. -/
def goJoin (joined : Option GoErr) (e : GoErr) : Option GoErr :=
  match joined with
  | none => some e
  | some j => some (.join j e)

/-- The provider loop of `Detect` (`src/gpu/driver.go:62`): try each factory
in order, return the first success, skip `ErrNoDriver` failures, accumulate
the other errors, and at the end return the accumulated error if any,
otherwise `ErrNoDriver`. -/
def detectLoop {α : Type} : List (ProviderEntry α) → Option GoErr → Except GoErr α
  | [], none => .error .noDriver
  | [], some j => .error j
  | entry :: rest, joined =>
    match entry.fn with
    | .ok driver => .ok driver
    | .error e =>
      if e.isNoDriver then detectLoop rest joined
      else detectLoop rest (goJoin joined e)

/-- Embedding of `Detect` (`src/gpu/driver.go:52`).  The snapshot of the
registered providers is the explicit `list` argument. -/
def Detect {α : Type} (list : List (ProviderEntry α)) : Except GoErr α :=
  if list.isEmpty then .error .noDriver
  else detectLoop list none

/-- The provider loop of `DetectByName` (`src/gpu/driver.go:98`): identical
to `Detect`'s loop except that entries whose registered name is empty or
differs from the lower-cased target are skipped. -/
def detectByNameLoop {α : Type} (target : String) :
    List (ProviderEntry α) → Option GoErr → Except GoErr α
  | [], none => .error .noDriver
  | [], some j => .error j
  | entry :: rest, joined =>
    if entry.name = "" ∨ entry.name ≠ target then detectByNameLoop target rest joined
    else
      match entry.fn with
      | .ok driver => .ok driver
      | .error e =>
        if e.isNoDriver then detectByNameLoop target rest joined
        else detectByNameLoop target rest (goJoin joined e)

/-- `strings.ToLower`, modelled as character-wise lower-casing (the
registered vendor names are ASCII, where the two agree). -/
def goToLower (s : String) : String :=
  String.mk (s.data.map Char.toLower)

/-- Embedding of `DetectByName` (`src/gpu/driver.go:87`): an empty name
falls back to `Detect`; otherwise only entries matching the lower-cased
name are tried. -/
def DetectByName {α : Type} (name : String) (list : List (ProviderEntry α)) : Except GoErr α :=
  if name = "" then Detect list
  else detectByNameLoop (goToLower name) list none

/-- The factory errors of a provider list, in encounter order. -/
def factoryErrors {α : Type} (list : List (ProviderEntry α)) : List GoErr :=
  list.filterMap fun en =>
    match en.fn with
    | .ok _ => none
    | .error e => some e

/-- The factory errors that do not match `ErrNoDriver`, in encounter
order: exactly the errors `Detect` accumulates. -/
def hardErrors {α : Type} (list : List (ProviderEntry α)) : List GoErr :=
  (factoryErrors list).filter fun e => !e.isNoDriver

/-- Left-nested `errors.Join` of a list of errors, starting from `nil`:
the shape the accumulation loop of `Detect`/`DetectByName` produces. -/
def joinAll (es : List GoErr) : Option GoErr :=
  es.foldl goJoin none

/-- The entries `DetectByName` actually tries for a non-empty target: the
complement of its skip condition `entry.name == "" || entry.name != target`. -/
def matchingEntries {α : Type} (target : String) (list : List (ProviderEntry α)) :
    List (ProviderEntry α) :=
  list.filter fun en => !(en.name = "" ∨ en.name ≠ target : Bool)

/-! ## GPU detection cache (`src/ui/app.go`) -/

/-- The detection state of `App` (`src/ui/app.go:32`): the two cache maps
guarded by `gpuDetectMu`.  Go map lookup of an absent key yields the zero
value, modelled by `Option`. -/
structure AppState (α : Type) where
  gpuDrivers : String → Option α
  gpuDetectErrs : String → Option GoErr

/-- The detection step inside `ensureGPUDriverForVendor`
(`src/ui/app.go:644`): a non-empty vendor first tries `DetectByName` and
falls back to `Detect` when the result matches `ErrNoDriver`; an empty
vendor runs `Detect` directly. -/
def appDetect {α : Type} (providers : List (ProviderEntry α)) (vendor : String) :
    Except GoErr α :=
  if vendor ≠ "" then
    match DetectByName vendor providers with
    | .ok d => .ok d
    | .error e => if e.isNoDriver then Detect providers else .error e
  else Detect providers

/-- Embedding of `App.ensureGPUDriverForVendor` (`src/ui/app.go:623`).
The returned `Bool` instruments the function: it is `true` exactly when
the call ran detection (`Detect`/`DetectByName`), `false` when it answered
from the cache.  The empty vendor key is mapped to `"default"`; the cache
hit test is the source's `ok || app.gpuDetectErrs[key] != nil`. -/
def ensureGPUDriverForVendor {α : Type} (providers : List (ProviderEntry α))
    (st : AppState α) (vendor : String) :
    (Option α × Option GoErr) × AppState α × Bool :=
  let key := if vendor = "" then "default" else vendor
  let driver := st.gpuDrivers key
  if driver.isSome ∨ (st.gpuDetectErrs key).isSome then
    ((driver, st.gpuDetectErrs key), st, false)
  else
    match appDetect providers vendor with
    | .ok d =>
      ((some d, none),
        { gpuDrivers := fun k => if k = key then some d else st.gpuDrivers k,
          gpuDetectErrs := fun k => if k = key then none else st.gpuDetectErrs k }, true)
    | .error e =>
      ((none, some e),
        { gpuDrivers := st.gpuDrivers,
          gpuDetectErrs := fun k => if k = key then some e else st.gpuDetectErrs k }, true)

/-! ## Intel chunked DPCD transactions
(`src/gpu/intel_igfx_windows.go:106`, `src/gpu/intel_igcl_windows.go:54`) -/

/-- One native AUX read call issued by the chunking loop: the `offset` and
`chunk` arguments passed to the single-chunk primitive. -/
structure AuxCall where
  offset : Nat
  len : Nat
deriving DecidableEq, Repr

/-- One native AUX write call issued by the chunking loop. -/
structure WriteCall where
  offset : Nat
  data : List Nat
deriving DecidableEq, Repr

/-- The loop of `intelDriver.ReadDPCD` (`src/gpu/intel_igfx_windows.go:119`);
`intelIGCLDriver.ReadDPCD` (`src/gpu/intel_igcl_windows.go:67`) is the same
loop verbatim.  `native` is the single-chunk primitive (`cui.ReadDPCD` /
`ctrl.ReadDPCD`).  `min remaining 16` renders `chunk := remaining; if chunk >
maxChunk { chunk = maxChunk }` with `maxChunk = 16`; `offset` and `remaining`
are `uint32`, so the offset advance wraps modulo `2^32`.  The call trace is
returned alongside the accumulated bytes. -/
def intelReadDPCDLoop (native : Nat → Nat → Except GoErr (List Nat))
    (offset remaining : Nat) : Except GoErr (List Nat × List AuxCall) :=
  if remaining = 0 then .ok ([], [])
  else
    let chunk := min remaining 16
    match native offset chunk with
    | .error e => .error e
    | .ok data =>
      match intelReadDPCDLoop native ((offset + chunk) % 2 ^ 32) (remaining - chunk) with
      | .error e => .error e
      | .ok (rest, calls) => .ok (data ++ rest, ⟨offset, chunk⟩ :: calls)
termination_by remaining
decreasing_by simp_wf; omega

/-- Embedding of `intelDriver.ReadDPCD` (`src/gpu/intel_igfx_windows.go:106`):
a zero length is rejected, otherwise the chunked loop runs from `addr`. -/
def intelDriver_ReadDPCD (native : Nat → Nat → Except GoErr (List Nat))
    (addr length : Nat) : Except GoErr (List Nat × List AuxCall) :=
  if length = 0 then .error (.msg "dpcd read length must be greater than zero")
  else intelReadDPCDLoop native addr length

/-- `intelIGCLDriver.ReadDPCD` (`src/gpu/intel_igcl_windows.go:54`) is the
same function body as `intelDriver.ReadDPCD` with its own single-chunk
primitive, which here is the `native` parameter. -/
def intelIGCLDriver_ReadDPCD (native : Nat → Nat → Except GoErr (List Nat))
    (addr length : Nat) : Except GoErr (List Nat × List AuxCall) :=
  intelDriver_ReadDPCD native addr length

/-- The loop of `intelDriver.WriteDPCD` (`src/gpu/intel_igfx_windows.go:147`);
`intelIGCLDriver.WriteDPCD` (`src/gpu/intel_igcl_windows.go:95`) is the same
loop verbatim.  `remaining.take 16` renders `chunk := remaining; if len(chunk)
> maxChunk { chunk = chunk[:maxChunk] }`, and `remaining.drop chunk.length`
renders `remaining = remaining[len(chunk):]`.  On the first failing chunk the
loop aborts with that error. -/
def intelWriteDPCDLoop (native : Nat → List Nat → Option GoErr)
    (offset : Nat) (remaining : List Nat) : Option GoErr × List WriteCall :=
  if remaining.isEmpty then (none, [])
  else
    let chunk := remaining.take 16
    match native offset chunk with
    | some e => (some e, [⟨offset, chunk⟩])
    | none =>
      let step := intelWriteDPCDLoop native ((offset + chunk.length) % 2 ^ 32)
        (remaining.drop chunk.length)
      (step.1, ⟨offset, chunk⟩ :: step.2)
termination_by remaining.length
decreasing_by simp_wf; cases remaining <;> simp_all

/-- Embedding of `intelDriver.WriteDPCD` (`src/gpu/intel_igfx_windows.go:135`):
an empty payload returns `nil` without any native call, otherwise the chunked
loop runs from `addr`. -/
def intelDriver_WriteDPCD (native : Nat → List Nat → Option GoErr)
    (addr : Nat) (data : List Nat) : Option GoErr × List WriteCall :=
  if data.isEmpty then (none, [])
  else intelWriteDPCDLoop native addr data

/-- `intelIGCLDriver.WriteDPCD` (`src/gpu/intel_igcl_windows.go:83`) is the
same function body as `intelDriver.WriteDPCD` with its own single-chunk
primitive. -/
def intelIGCLDriver_WriteDPCD (native : Nat → List Nat → Option GoErr)
    (addr : Nat) (data : List Nat) : Option GoErr × List WriteCall :=
  intelDriver_WriteDPCD native addr data

/-- Bytes already transferred before the `i`-th call of a read trace: the
sum of the chunk sizes of the earlier calls. -/
def transferredBefore (calls : List AuxCall) (i : Nat) : Nat :=
  ((calls.take i).map AuxCall.len).sum

/-- The data a successful single-chunk read returns for a call (used to
state that the chunked result is the concatenation of the chunk results). -/
def okBytes (native : Nat → Nat → Except GoErr (List Nat)) (c : AuxCall) : List Nat :=
  match native c.offset c.len with
  | .ok d => d
  | .error _ => []

/-! ## IntelCUI session lifecycle (`src/gpu/intel_igfx_windows.go:195`) -/

/-- The state of an `IntelCUI` session: `obj` is the reference-counted COM
object (`some` while live, `none` after release or when never acquired),
`display` and `delayMS` are the remaining fields of the struct. -/
structure IntelCUIState where
  obj : Option Nat
  display : Int
  delayMS : Nat
deriving DecidableEq, Repr

/-- Embedding of `IntelCUI.Close` (`src/gpu/intel_igfx_windows.go:225`).
The receiver may be `nil` (`none`); a live object's vtable `Release` slot is
invoked once and `c.obj` is set to `nil`.  The `Nat` component counts the
native `Release` invocations the call performs. -/
def IntelCUI_Close : Option IntelCUIState → Option IntelCUIState × Nat
  | none => (none, 0)
  | some c =>
    match c.obj with
    | none => (some c, 0)
    | some _ => (some { c with obj := none }, 1)

/-! ## Intel AUX error decoding (`src/gpu/intel_igfx_windows.go:462`) -/

/-- Uppercase hexadecimal digit characters. -/
def hexDigits : List Char :=
  ['0', '1', '2', '3', '4', '5', '6', '7', '8', '9', 'A', 'B', 'C', 'D', 'E', 'F']

/-- `fmt.Sprintf("%08X", n)` for a 32-bit value: eight uppercase hex
digits, most significant first. -/
def toHex8 (n : Nat) : String :=
  String.mk ((List.range 8).map fun k => hexDigits.getD ((n >>> (4 * (7 - k))) &&& 0xF) '0')

/-- `fmt.Sprintf("%X", n)`: uppercase hex digits without padding. -/
def toHexNat (n : Nat) : String :=
  if n < 16 then String.mk [hexDigits.getD n '0']
  else toHexNat (n / 16) ++ String.mk [hexDigits.getD (n % 16) '0']

/-- The `switch code` decode table of `IntelCUI.auxErr`
(`src/gpu/intel_igfx_windows.go:464`): the message text for an AUX device
error code (an `int32`); code 0 leaves the message empty, an unknown code
is rendered with its decimal value. -/
def auxErrCore (code : Int) : String :=
  if code = 67 then "Invalid AUX device"
  else if code = 68 then "Invalid AUX address"
  else if code = 69 then "Invalid AUX data size"
  else if code = 70 then "AUX defer"
  else if code = 71 then "AUX timeout"
  else if code = 0 then ""
  else "AUX unknown error (" ++ toString code ++ ")"

/-- Embedding of `IntelCUI.auxErr` (`src/gpu/intel_igfx_windows.go:462`):
decode the AUX device error `code`, append the HRESULT when the call-level
status failed (`uint32(hr)` is `hr` taken modulo `2^32`), prefix the
operation name, and fall back to a generic message when everything was
empty. -/
def auxErr (op : String) (hr : Int) (code : Int) : GoErr :=
  let m0 := auxErrCore code
  let m1 :=
    if hr < 0 then
      (if m0 = "" then "AUX call failed" else m0) ++ "; hr=0x" ++ toHex8 (hr % 2 ^ 32).toNat
    else m0
  let m2 := if op ≠ "" then op ++ ": " ++ m1 else m1
  let m3 := if m2 = "" then "intel igfx: unexpected AUX error" else m2
  .msg m3

/-! ## NVAPI backend (`src/gpu/nvidia_nvapi_windows.go`) -/

/-- What the native `NvAPI_Disp_DpAuxChannelControl` call writes back for a
given `(addr, length)` request: the call-level status (its `uint32` return
value), and the `Status`, `LenMinus1` and `Buf` fields of the parameter
struct after the call. -/
structure NvAuxOut where
  callStatus : Nat
  status : Int
  lenMinus1 : Nat
  buf : List Nat

/-- Embedding of `nvapiProcs.statusError`
(`src/gpu/nvidia_nvapi_windows.go:296`).  `getErrMsg` abstracts the native
`NvAPI_GetErrorMessage` lookup: it yields the NUL-trimmed, space-trimmed
message for a status (the empty string when the native call produced
none, in which case the generic `status 0x%08X` text is kept). -/
def nvapiStatusError (getErrMsg : Nat → String) (status : Nat) (context : String) : GoErr :=
  let message := if getErrMsg status ≠ "" then getErrMsg status else "status 0x" ++ toHex8 status
  if context ≠ "" then .msg (context ++ ": " ++ message ++ " (0x" ++ toHex8 status ++ ")")
  else .msg ("nvapi error: " ++ message ++ " (0x" ++ toHex8 status ++ ")")

/-- Embedding of `nvapiDriver.ReadDPCD`
(`src/gpu/nvidia_nvapi_windows.go:236`).  `native` is the AUX transaction
oracle, `getErrMsg` feeds `statusError`.  The `Nat` component counts the
native AUX calls performed.  `LenMinus1 + 1` is `uint32` arithmetic, so it
wraps modulo `2^32`; the reported actual length is clamped to the request
(`if actual > int(length) { actual = int(length) }`; the `actual < 0`
branch is unreachable since `int(uint32)` is non-negative). -/
def nvapiDriver_ReadDPCD (native : Nat → Nat → NvAuxOut) (getErrMsg : Nat → String)
    (addr length : Nat) : Except GoErr (List Nat) × Nat :=
  if length = 0 then (.error (.msg "dpcd read length must be greater than zero"), 0)
  else if length > 16 then
    (.error (.msg ("dpcd read length " ++ toString length ++ " exceeds 16-byte limit")), 0)
  else
    let out := native addr length
    if out.callStatus ≠ 0 then
      if out.status = 0xFF then (.error (.msg "nvapi: dp aux transaction timed out"), 1)
      else (.error (nvapiStatusError getErrMsg out.callStatus "NvAPI_Disp_DpAuxChannelControl"), 1)
    else if out.status = 0xFF then (.error (.msg "nvapi: dp aux transaction timed out"), 1)
    else if out.status ≠ 0 then
      (.error (.msg ("nvapi: dp aux error status 0x" ++ toHexNat (out.status % 2 ^ 32).toNat)), 1)
    else
      let actual := min ((out.lenMinus1 + 1) % 2 ^ 32) length
      (.ok (out.buf.take actual), 1)

/-- Embedding of `nvapiDriver.WriteDPCD`
(`src/gpu/nvidia_nvapi_windows.go:284`): the body is `return
ErrNotImplemented`.  The `Nat` component counts native calls (none). -/
def nvapiDriver_WriteDPCD (addr : Nat) (data : List Nat) : Option GoErr × Nat :=
  (some .notImplemented, 0)

/-- Embedding of `nvapiDriver.ReadI2C`
(`src/gpu/nvidia_nvapi_windows.go:288`): `return nil, ErrNotImplemented`. -/
def nvapiDriver_ReadI2C (addr length : Nat) : Except GoErr (List Nat) × Nat :=
  (.error .notImplemented, 0)

/-- Embedding of `nvapiDriver.WriteI2C`
(`src/gpu/nvidia_nvapi_windows.go:292`): `return ErrNotImplemented`. -/
def nvapiDriver_WriteI2C (addr : Nat) (data : List Nat) : Option GoErr × Nat :=
  (some .notImplemented, 0)

/-! ## Lua byte-sequence decoding (`src/ui/app.go:752`) -/

/-- The Lua values `tableToByteSlice` inspects: a `lua.LNumber` carries a
numeric value (Go `float64`, modelled as an exact rational), and `nonNum`
stands for any value of another Lua type. -/
inductive LuaVal where
  | num : ℚ → LuaVal
  | nonNum : LuaVal
deriving DecidableEq

/-- Go's `int(f)` conversion for a `float64`: truncation toward zero,
computed on the reduced fraction (`Int.tdiv` rounds toward zero). -/
def goTrunc (q : ℚ) : Int :=
  q.num.tdiv (q.den : Int)

/-- The loop body of `tableToByteSlice` (`src/ui/app.go:757`), iterating the
1-indexed sequence entries: reject a non-number entry, a non-integral
number (`float64(int(v)) != v`), and an out-of-range integer, naming the
offending index; otherwise emit `byte(v)` and continue. -/
def tableToByteSliceAux : Nat → List LuaVal → Except GoErr (List Nat)
  | _, [] => .ok []
  | i, v :: rest =>
    match v with
    | .nonNum => .error (.msg ("table index " ++ toString i ++ " is not a number"))
    | .num q =>
      if (goTrunc q : ℚ) ≠ q then
        .error (.msg ("table index " ++ toString i ++ " value must be an integer"))
      else if goTrunc q < 0 ∨ goTrunc q > 255 then
        .error (.msg ("table index " ++ toString i ++ " value " ++ toString (goTrunc q) ++
          " out of range"))
      else
        match tableToByteSliceAux (i + 1) rest with
        | .error e => .error e
        | .ok l => .ok ((goTrunc q).toNat :: l)

/-- Embedding of `tableToByteSlice` (`src/ui/app.go:752`): the sequence part
of the Lua table is the list `tbl`; an empty sequence yields an empty
buffer, otherwise entries are validated from index 1 on. -/
def tableToByteSlice (tbl : List LuaVal) : Except GoErr (List Nat) :=
  if tbl.length = 0 then .ok []
  else tableToByteSliceAux 1 tbl

/-- The validation outcome of a single table entry at (1-indexed) position
`i`, as `tableToByteSlice` reports it: `some e` when the entry is rejected
with error `e`, `none` when it is accepted. -/
def entryError (i : Nat) : LuaVal → Option GoErr
  | .nonNum => some (.msg ("table index " ++ toString i ++ " is not a number"))
  | .num q =>
    if (goTrunc q : ℚ) ≠ q then
      some (.msg ("table index " ++ toString i ++ " value must be an integer"))
    else if goTrunc q < 0 ∨ goTrunc q > 255 then
      some (.msg ("table index " ++ toString i ++ " value " ++ toString (goTrunc q) ++
        " out of range"))
    else none

/-- Bytes already transferred before the `i`-th call of a write trace. -/
def writeTransferredBefore (calls : List WriteCall) (i : Nat) : Nat :=
  ((calls.take i).map (fun c => c.data.length)).sum

/-- An empty detection cache over `Nat` driver handles (used by concrete
instances of the cache theorems). -/
def emptyAppState : AppState Nat :=
  { gpuDrivers := fun _ => none, gpuDetectErrs := fun _ => none }

/-- C5: the shared I2C address decoder splits a packed 32-bit address into
`slave = addr & 0x7F` and `register = addr >> 8`.  For every slave below
2^7 and register below 2^24 (so the packed value fits in 32 bits), decoding
the documented packing `slave | (reg << 8)` recovers exactly the pair, and
in particular address `0x1A50` decodes to slave `0x50`, register `0x1A`. -/
theorem decodeI2CAddress_spec :
    (∀ slave reg : Nat, slave < 0x80 → reg < 2 ^ 24 →
      decodeI2CAddress (slave ||| (reg <<< 8)) = (slave, reg)) ∧
    decodeI2CAddress 0x1A50 = (0x50, 0x1A) := by
  constructor
  · intro slave reg hs _hr
    have hsh : reg <<< 8 = 2 ^ 8 * reg := by
      rw [Nat.shiftLeft_eq]; ring
    have hor : slave ||| reg <<< 8 = 2 ^ 8 * reg + slave := by
      rw [hsh, Nat.or_comm, ← Nat.mul_add_lt_is_or (by omega : slave < 2 ^ 8)]
    unfold decodeI2CAddress
    rw [hor]
    have hand : (2 ^ 8 * reg + slave) &&& 0x7F = (2 ^ 8 * reg + slave) % 2 ^ 7 := by
      have : (0x7F : Nat) = 2 ^ 7 - 1 := by norm_num
      rw [this, Nat.and_pow_two_sub_one_eq_mod]
    have hshr : (2 ^ 8 * reg + slave) >>> 8 = (2 ^ 8 * reg + slave) / 2 ^ 8 := by
      rw [Nat.shiftRight_eq_div_pow]
    rw [hand, hshr, Prod.mk.injEq]
    exact ⟨by omega, by omega⟩
  · rfl

/-- Witness for `decodeI2CAddress_spec` at slave `0x50`, register `0x1A`
(packed address `0x1A50`). -/
theorem decodeI2CAddress_spec_witness :
    decodeI2CAddress (0x50 ||| (0x1A <<< 8)) = (0x50, 0x1A) :=
  decodeI2CAddress_spec.1 0x50 0x1A (by decide) (by decide)

/-- C7: on the NVAPI backend, `WriteDPCD`, `ReadI2C` and `WriteI2C` return
the `ErrNotImplemented` sentinel for every address and payload, performing
zero native calls, and the sentinel is a distinct error value (testable by
identity, not by message). -/
theorem nvapi_unimplemented_ops :
    (∀ addr data, nvapiDriver_WriteDPCD addr data = (some GoErr.notImplemented, 0)) ∧
    (∀ addr len, nvapiDriver_ReadI2C addr len = (.error GoErr.notImplemented, 0)) ∧
    (∀ addr data, nvapiDriver_WriteI2C addr data = (some GoErr.notImplemented, 0)) ∧
    (GoErr.notImplemented == GoErr.noDriver) = false ∧
    (∀ s, (GoErr.notImplemented == GoErr.msg s) = false) := by
  refine ⟨fun _ _ => rfl, fun _ _ => rfl, fun _ _ => rfl, by decide, fun s => ?_⟩
  simp

/-- C9: releasing an `IntelCUI` session is idempotent.  The first `Close` on
a live session performs exactly one native `Release` and clears the object
reference; `Close` on a nil receiver or an already-closed session performs
no native call and leaves the state unchanged; hence a second `Close` after
any `Close` never issues a native call and never changes the state. -/
theorem IntelCUI_Close_idempotent :
    (∀ (c : IntelCUIState) (o : Nat), c.obj = some o →
      IntelCUI_Close (some c) = (some { c with obj := none }, 1)) ∧
    IntelCUI_Close none = (none, 0) ∧
    (∀ c : IntelCUIState, c.obj = none → IntelCUI_Close (some c) = (some c, 0)) ∧
    (∀ s : Option IntelCUIState,
      IntelCUI_Close (IntelCUI_Close s).1 = ((IntelCUI_Close s).1, 0)) := by
  refine ⟨fun c o h => by simp [IntelCUI_Close, h], rfl,
    fun c h => by simp [IntelCUI_Close, h], fun s => ?_⟩
  match s with
  | none => rfl
  | some c =>
    match h : c.obj with
    | none => simp [IntelCUI_Close, h]
    | some o => simp [IntelCUI_Close, h]

/-- Witness for `IntelCUI_Close_idempotent`: closing a live session with
object reference `5`, display `1`, delay `20` releases it once. -/
theorem IntelCUI_Close_idempotent_witness :
    IntelCUI_Close (some ⟨some 5, 1, 20⟩) = (some ⟨none, 1, 20⟩, 1) :=
  IntelCUI_Close_idempotent.1 ⟨some 5, 1, 20⟩ 5 rfl

/-- C10: `nvapiDriver.ReadDPCD` does not chunk.  A zero length and a length
above 16 are rejected with the respective errors before any native AUX
call; a native AUX call happens only for lengths between 1 and 16, and then
exactly one. -/
theorem nvapiDriver_ReadDPCD_limits (native : Nat → Nat → NvAuxOut)
    (getErrMsg : Nat → String) (addr : Nat) :
    (nvapiDriver_ReadDPCD native getErrMsg addr 0 =
      (.error (.msg "dpcd read length must be greater than zero"), 0)) ∧
    (∀ len, len > 16 → nvapiDriver_ReadDPCD native getErrMsg addr len =
      (.error (.msg ("dpcd read length " ++ toString len ++ " exceeds 16-byte limit")), 0)) ∧
    (∀ len, (nvapiDriver_ReadDPCD native getErrMsg addr len).2 ≠ 0 →
      1 ≤ len ∧ len ≤ 16) ∧
    (∀ len, 1 ≤ len → len ≤ 16 →
      (nvapiDriver_ReadDPCD native getErrMsg addr len).2 = 1) := by
  refine ⟨rfl, fun len h => ?_, fun len h => ?_, fun len h1 h16 => ?_⟩
  · rw [nvapiDriver_ReadDPCD, if_neg (by omega), if_pos h]
  · by_cases h0 : len = 0
    · subst h0; simp [nvapiDriver_ReadDPCD] at h
    · by_cases h16 : len > 16
      · rw [nvapiDriver_ReadDPCD, if_neg h0, if_pos h16] at h
        simp at h
      · omega
  · rw [nvapiDriver_ReadDPCD, if_neg (by omega), if_neg (by omega)]
    simp only
    split
    · split <;> rfl
    · split
      · rfl
      · split <;> rfl

/-- Witness for `nvapiDriver_ReadDPCD_limits`: with a trivial AUX oracle, a
17-byte request is rejected with the 16-byte-limit error and no native
call. -/
theorem nvapiDriver_ReadDPCD_limits_witness :
    nvapiDriver_ReadDPCD (fun _ _ => ⟨0, 0, 15, List.replicate 16 0⟩) (fun _ => "") 0 17 =
      (.error (.msg ("dpcd read length " ++ toString 17 ++ " exceeds 16-byte limit")), 0) :=
  (nvapiDriver_ReadDPCD_limits (fun _ _ => ⟨0, 0, 15, List.replicate 16 0⟩)
    (fun _ => "") 0).2.1 17 (by omega)

/-- A rejected entry makes the conversion loop fail with that entry's
error when it is reached first. -/
theorem entryError_some_aux {i : Nat} {v : LuaVal} {e : GoErr} (rest : List LuaVal)
    (h : entryError i v = some e) :
    tableToByteSliceAux i (v :: rest) = .error e := by
  cases v with
  | nonNum =>
    simp only [entryError, Option.some.injEq] at h
    simp [tableToByteSliceAux, h]
  | num q =>
    simp only [entryError] at h
    simp only [tableToByteSliceAux]
    split_ifs at h ⊢ <;> simp_all

/-- An accepted entry lets the conversion loop pass an error from the rest
of the sequence through unchanged. -/
theorem aux_good_propagates {i : Nat} {v : LuaVal} {e : GoErr} (rest : List LuaVal)
    (h : entryError i v = none) (hrec : tableToByteSliceAux (i + 1) rest = .error e) :
    tableToByteSliceAux i (v :: rest) = .error e := by
  cases v with
  | nonNum => simp [entryError] at h
  | num q =>
    simp only [entryError] at h
    simp only [tableToByteSliceAux]
    split_ifs at h ⊢
    simp_all

/-- The conversion loop starting at table index `i` reports the error of
the first rejected entry. -/
theorem tableToByteSliceAux_error_at (tbl : List LuaVal) :
    ∀ (i j : Nat) (v : LuaVal) (e : GoErr),
      tbl[j]? = some v → entryError (i + j) v = some e →
      (∀ k w, k < j → tbl[k]? = some w → entryError (i + k) w = none) →
      tableToByteSliceAux i tbl = .error e := by
  induction tbl with
  | nil => intro i j v e hj _ _; simp at hj
  | cons v0 rest ih =>
    intro i j v e hj he hgood
    cases j with
    | zero =>
      rw [List.getElem?_cons_zero, Option.some.injEq] at hj
      subst hj
      exact entryError_some_aux rest (by simpa using he)
    | succ j' =>
      have h0 : entryError i v0 = none := by
        simpa using hgood 0 v0 (Nat.succ_pos j') (by simp)
      have hrec : tableToByteSliceAux (i + 1) rest = .error e := by
        apply ih (i + 1) j' v e (by simpa using hj)
        · have harith : i + 1 + j' = i + (j' + 1) := by omega
          rw [harith]; exact he
        · intro k w hk hkw
          have harith : i + 1 + k = i + (k + 1) := by omega
          rw [harith]
          exact hgood (k + 1) w (by omega) (by simpa using hkw)
      exact aux_good_propagates rest h0 hrec

/-- C6: converting a Lua byte-value sequence: `{0,255,128}` maps to the
bytes `[0x00, 0xFF, 0x80]`, the empty table yields an empty buffer, and
whenever the sequence contains a rejected entry (not a number, not an
integer, negative, or greater than 255), the conversion returns the error
naming the first offending 1-based index — and no buffer, so nothing is
clamped or truncated. -/
theorem tableToByteSlice_spec :
    tableToByteSlice [LuaVal.num 0, LuaVal.num 255, LuaVal.num 128] = .ok [0x00, 0xFF, 0x80] ∧
    tableToByteSlice [] = .ok [] ∧
    (∀ (tbl : List LuaVal) (j : Nat) (v : LuaVal) (e : GoErr),
      tbl[j]? = some v → entryError (j + 1) v = some e →
      (∀ k w, k < j → tbl[k]? = some w → entryError (k + 1) w = none) →
      tableToByteSlice tbl = .error e) := by
  refine ⟨rfl, rfl, ?_⟩
  intro tbl j v e hj he hgood
  have hne : ¬tbl.length = 0 := by
    intro h
    rw [List.length_eq_zero] at h; subst h; simp at hj
  rw [tableToByteSlice, if_neg hne]
  apply tableToByteSliceAux_error_at tbl 1 j v e hj
  · have harith : 1 + j = j + 1 := by omega
    rw [harith]; exact he
  · intro k w hk hkw
    have harith : 1 + k = k + 1 := by omega
    rw [harith]; exact hgood k w hk hkw

/-- Witness for `tableToByteSlice_spec`: the sequence `{256}` is rejected
with an out-of-range error naming index 1, not clamped. -/
theorem tableToByteSlice_spec_witness :
    tableToByteSlice [LuaVal.num 256] =
      .error (GoErr.msg "table index 1 value 256 out of range") :=
  tableToByteSlice_spec.2.2 [LuaVal.num 256] 0 (LuaVal.num 256)
    (GoErr.msg "table index 1 value 256 out of range")
    (by decide) (by decide) (fun k w hk _ => absurd hk (by omega))

/-- When every entry is skipped by the name filter, the named loop falls
through to the bare `ErrNoDriver` sentinel. -/
theorem detectByNameLoop_skip_all {α : Type} (target : String)
    (list : List (ProviderEntry α))
    (hskip : ∀ en ∈ list, en.name = "" ∨ en.name ≠ target) :
    detectByNameLoop target list none = .error .noDriver := by
  induction list with
  | nil => rfl
  | cons en rest ih =>
    simp only [detectByNameLoop]
    rw [if_pos (hskip en (by simp))]
    exact ih fun e he => hskip e (by simp [he])

/-- C2: a named detection request for a vendor under which no provider is
registered yields the same outcome as an unconditional request: the
`DetectByName` pass returns the bare `ErrNoDriver` sentinel, so the
caller's fallback (`App.ensureGPUDriverForVendor`) runs `Detect`, making
the named request's outcome exactly `Detect`'s — the same driver when some
factory succeeds, the same error when none does. -/
theorem DetectByName_unregistered {α : Type} (providers : List (ProviderEntry α))
    (vendor : String) (hne : vendor ≠ "")
    (hunreg : ∀ en ∈ providers, en.name = "" ∨ en.name ≠ goToLower vendor) :
    DetectByName vendor providers = .error .noDriver ∧
    appDetect providers vendor = Detect providers := by
  have h1 : DetectByName vendor providers = .error .noDriver := by
    rw [DetectByName, if_neg hne]
    exact detectByNameLoop_skip_all _ _ hunreg
  refine ⟨h1, ?_⟩
  rw [appDetect, if_pos hne, h1]
  simp [GoErr.isNoDriver]

/-- Witness for `DetectByName_unregistered`: with no providers registered,
a request for vendor `"nvidia"` behaves like the unconditional request. -/
theorem DetectByName_unregistered_witness :
    DetectByName "nvidia" ([] : List (ProviderEntry Nat)) = .error .noDriver ∧
    appDetect ([] : List (ProviderEntry Nat)) "nvidia" = Detect [] :=
  DetectByName_unregistered [] "nvidia" (by decide) (by intro en h; cases h)

/-- When every factory fails, `Detect`'s loop returns the accumulated
left-nested join of the non-`ErrNoDriver` errors, in encounter order, or
the sentinel when there are none. -/
theorem detectLoop_all_fail {α : Type} :
    ∀ (list : List (ProviderEntry α)) (joined : Option GoErr),
      (∀ en ∈ list, ∃ e, en.fn = Except.error e) →
      detectLoop list joined =
        .error (((hardErrors list).foldl goJoin joined).getD .noDriver) := by
  intro list
  induction list with
  | nil => intro joined _; cases joined <;> rfl
  | cons en rest ih =>
    intro joined hfail
    obtain ⟨e, hfn⟩ := hfail en (by simp)
    have hrest : ∀ x ∈ rest, ∃ e, x.fn = Except.error e :=
      fun x hx => hfail x (List.mem_cons_of_mem _ hx)
    simp only [detectLoop, hfn]
    by_cases hnd : e.isNoDriver
    · rw [if_pos hnd, ih joined hrest]
      have : hardErrors (en :: rest) = hardErrors rest := by
        simp [hardErrors, factoryErrors, hfn, hnd]
      rw [this]
    · rw [if_neg hnd, ih (goJoin joined e) hrest]
      have : hardErrors (en :: rest) = e :: hardErrors rest := by
        simp [hardErrors, factoryErrors, hfn, hnd]
      rw [this, List.foldl_cons]

/-- Same aggregation for the named loop: only the matching entries
contribute. -/
theorem detectByNameLoop_all_fail {α : Type} (target : String) :
    ∀ (list : List (ProviderEntry α)) (joined : Option GoErr),
      (∀ en ∈ list, ∃ e, en.fn = Except.error e) →
      detectByNameLoop target list joined =
        .error (((hardErrors (matchingEntries target list)).foldl goJoin joined).getD
          .noDriver) := by
  intro list
  induction list with
  | nil => intro joined _; cases joined <;> rfl
  | cons en rest ih =>
    intro joined hfail
    obtain ⟨e, hfn⟩ := hfail en (by simp)
    have hrest : ∀ x ∈ rest, ∃ e, x.fn = Except.error e :=
      fun x hx => hfail x (List.mem_cons_of_mem _ hx)
    by_cases hskip : en.name = "" ∨ en.name ≠ target
    · simp only [detectByNameLoop]
      rw [if_pos hskip, ih joined hrest]
      have : matchingEntries target (en :: rest) = matchingEntries target rest := by
        simp only [matchingEntries, List.filter_cons]
        rw [if_neg (by simp [hskip])]
      rw [this]
    · simp only [detectByNameLoop, hfn]
      rw [if_neg hskip]
      have hm : matchingEntries target (en :: rest) = en :: matchingEntries target rest := by
        simp only [matchingEntries, List.filter_cons]
        rw [if_pos (by simp [hskip])]
      by_cases hnd : e.isNoDriver
      · rw [if_pos hnd, ih joined hrest, hm]
        have : hardErrors (en :: matchingEntries target rest) =
            hardErrors (matchingEntries target rest) := by
          simp [hardErrors, factoryErrors, hfn, hnd]
        rw [this]
      · rw [if_neg hnd, ih (goJoin joined e) hrest, hm]
        have : hardErrors (en :: matchingEntries target rest) =
            e :: hardErrors (matchingEntries target rest) := by
          simp [hardErrors, factoryErrors, hfn, hnd]
        rw [this, List.foldl_cons]

/-- C3: when no provider factory succeeds, `Detect` returns the left-nested
`errors.Join` of exactly the factory errors that do not match `ErrNoDriver`,
in encounter order; errors matching `ErrNoDriver` never enter the
aggregate, and the bare sentinel is returned exactly when no hard error was
collected (every failure matched `ErrNoDriver`, or no provider was tried).
`DetectByName` aggregates the same way over the entries matching the
lower-cased key. -/
theorem Detect_error_aggregation {α : Type} (providers : List (ProviderEntry α))
    (hfail : ∀ en ∈ providers, ∃ e, en.fn = Except.error e) :
    Detect providers = .error ((joinAll (hardErrors providers)).getD .noDriver) ∧
    (∀ name, name ≠ "" →
      DetectByName name providers =
        .error ((joinAll (hardErrors (matchingEntries (goToLower name) providers))).getD
          .noDriver)) := by
  constructor
  · by_cases hempty : providers.isEmpty
    · rw [Detect, if_pos hempty]
      rw [List.isEmpty_iff] at hempty
      subst hempty
      rfl
    · rw [Detect, if_neg hempty]
      exact detectLoop_all_fail providers none hfail
  · intro name hname
    rw [DetectByName, if_neg hname]
    exact detectByNameLoop_all_fail (goToLower name) providers none hfail

/-- Witness for `Detect_error_aggregation`: one hard failure and one
`ErrNoDriver` failure — the aggregate is exactly the hard error, for both
the unconditional and the named pass. -/
theorem Detect_error_aggregation_witness :
    Detect [ProviderEntry.mk "intel" (Except.error (GoErr.msg "boom") : Except GoErr Nat),
        ProviderEntry.mk "nvidia" (Except.error GoErr.noDriver)] =
      .error (GoErr.msg "boom") ∧
    DetectByName "Intel"
        [ProviderEntry.mk "intel" (Except.error (GoErr.msg "boom") : Except GoErr Nat),
          ProviderEntry.mk "nvidia" (Except.error GoErr.noDriver)] =
      .error (GoErr.msg "boom") := by
  have hfail : ∀ en ∈ [ProviderEntry.mk "intel"
      (Except.error (GoErr.msg "boom") : Except GoErr Nat),
      ProviderEntry.mk "nvidia" (Except.error GoErr.noDriver)],
      ∃ e, en.fn = Except.error e := by
    intro en hen
    simp only [List.mem_cons, List.not_mem_nil, or_false] at hen
    rcases hen with rfl | rfl
    · exact ⟨GoErr.msg "boom", rfl⟩
    · exact ⟨GoErr.noDriver, rfl⟩
  constructor
  · rw [(Detect_error_aggregation _ hfail).1]
    rfl
  · rw [(Detect_error_aggregation _ hfail).2 "Intel" (by decide)]
    rfl

/-- C4: GPU detection runs at most once per vendor key.  Any call leaves
the key (the empty vendor mapping to `"default"`) populated with a driver
or a non-nil error; a call starting from an unpopulated key runs detection
(instrumentation bit `true`); and a second call for the same key after any
call returns the identical cached driver/error pair, leaves the cache
unchanged, and does not run detection again — a no-driver error is cached
exactly like a success. -/
theorem ensureGPUDriverForVendor_cache {α : Type} (providers : List (ProviderEntry α))
    (st : AppState α) (vendor key : String)
    (hkey : key = if vendor = "" then "default" else vendor) :
    (((ensureGPUDriverForVendor providers st vendor).2.1.gpuDrivers key).isSome
      ∨ ((ensureGPUDriverForVendor providers st vendor).2.1.gpuDetectErrs key).isSome) ∧
    (st.gpuDrivers key = none → st.gpuDetectErrs key = none →
      (ensureGPUDriverForVendor providers st vendor).2.2 = true) ∧
    ensureGPUDriverForVendor providers (ensureGPUDriverForVendor providers st vendor).2.1 vendor
      = ((ensureGPUDriverForVendor providers st vendor).1,
          (ensureGPUDriverForVendor providers st vendor).2.1, false) := by
  subst hkey
  by_cases hcache : (st.gpuDrivers (if vendor = "" then "default" else vendor)).isSome
      ∨ (st.gpuDetectErrs (if vendor = "" then "default" else vendor)).isSome
  · have h1 : ensureGPUDriverForVendor providers st vendor =
        ((st.gpuDrivers (if vendor = "" then "default" else vendor),
          st.gpuDetectErrs (if vendor = "" then "default" else vendor)), st, false) := by
      simp only [ensureGPUDriverForVendor]
      rw [if_pos hcache]
    rw [h1]
    refine ⟨hcache, ?_, ?_⟩
    · intro hd he
      rw [hd, he] at hcache
      simp at hcache
    · simp only [ensureGPUDriverForVendor]
      rw [if_pos hcache]
  · have h0 : ¬((st.gpuDrivers (if vendor = "" then "default" else vendor)).isSome = true
        ∨ (st.gpuDetectErrs (if vendor = "" then "default" else vendor)).isSome = true) :=
      hcache
    cases hdet : appDetect providers vendor with
    | ok d =>
      have h1 : ensureGPUDriverForVendor providers st vendor =
          ((some d, none),
            { gpuDrivers := fun k =>
                if k = (if vendor = "" then "default" else vendor) then some d
                else st.gpuDrivers k,
              gpuDetectErrs := fun k =>
                if k = (if vendor = "" then "default" else vendor) then none
                else st.gpuDetectErrs k }, true) := by
        simp only [ensureGPUDriverForVendor]
        rw [if_neg h0, hdet]
      rw [h1]
      refine ⟨by simp, fun _ _ => rfl, ?_⟩
      simp only [ensureGPUDriverForVendor]
      rw [if_pos (by simp)]
      simp
    | error e =>
      have h1 : ensureGPUDriverForVendor providers st vendor =
          ((none, some e),
            { gpuDrivers := st.gpuDrivers,
              gpuDetectErrs := fun k =>
                if k = (if vendor = "" then "default" else vendor) then some e
                else st.gpuDetectErrs k }, true) := by
        simp only [ensureGPUDriverForVendor]
        rw [if_neg h0, hdet]
      rw [h1]
      refine ⟨by simp, fun _ _ => rfl, ?_⟩
      simp only [ensureGPUDriverForVendor]
      rw [if_pos (by simp)]
      have hd : st.gpuDrivers (if vendor = "" then "default" else vendor) = none := by
        rcases h : st.gpuDrivers (if vendor = "" then "default" else vendor) with _ | d
        · rfl
        · exact absurd (Or.inl (by simp [h])) h0
      simp [hd]

/-- Witness for `ensureGPUDriverForVendor_cache`: with no providers
registered and an empty cache, two sequential requests for vendor
`"nvidia"`: the first probes and caches the no-driver outcome, the second
returns the identical cached result without probing. -/
theorem ensureGPUDriverForVendor_cache_witness :
    (((ensureGPUDriverForVendor [] emptyAppState "nvidia").2.1.gpuDrivers "nvidia").isSome
      ∨ ((ensureGPUDriverForVendor [] emptyAppState "nvidia").2.1.gpuDetectErrs
          "nvidia").isSome) ∧
    (emptyAppState.gpuDrivers "nvidia" = none → emptyAppState.gpuDetectErrs "nvidia" = none →
      (ensureGPUDriverForVendor [] emptyAppState "nvidia").2.2 = true) ∧
    ensureGPUDriverForVendor [] (ensureGPUDriverForVendor [] emptyAppState "nvidia").2.1 "nvidia"
      = ((ensureGPUDriverForVendor [] emptyAppState "nvidia").1,
          (ensureGPUDriverForVendor [] emptyAppState "nvidia").2.1, false) :=
  ensureGPUDriverForVendor_cache [] emptyAppState "nvidia" "nvidia" (by decide)

/-- A string append is non-empty when its left part is. -/
theorem str_append_ne_empty_left {s : String} (t : String) (h : s ≠ "") : s ++ t ≠ "" := by
  intro he
  apply h
  have hd : s.data ++ t.data = [] := by simpa using congrArg String.data he
  have h2 := List.append_eq_nil.mp hd
  cases s
  simp_all

/-- A string append is non-empty when its right part is. -/
theorem str_append_ne_empty_right {t : String} (s : String) (h : t ≠ "") : s ++ t ≠ "" := by
  intro he
  apply h
  have hd : s.data ++ t.data = [] := by simpa using congrArg String.data he
  have h2 := List.append_eq_nil.mp hd
  cases t
  simp_all

/-- When the decoded device-code text is non-empty, the final `auxErr`
message is that text with the operation prefix and the HRESULT suffix
around it. -/
theorem auxErr_msg_shape (op : String) (hr : Int) (code : Int)
    (hne : auxErrCore code ≠ "") :
    (auxErr op hr code).message =
      (if op = "" then "" else op ++ ": ") ++ auxErrCore code ++
        (if hr < 0 then "; hr=0x" ++ toHex8 (hr % 2 ^ 32).toNat else "") := by
  rw [auxErr]
  by_cases hhr : hr < 0 <;> by_cases hop : op = ""
  · simp only [hhr, if_true, if_neg hne, hop, ite_not, if_true, GoErr.message]
    rw [if_neg (str_append_ne_empty_left _ (str_append_ne_empty_left _ hne))]
    simp [String.append_assoc]
  · simp only [hhr, if_true, if_neg hne, ite_not, if_neg hop, GoErr.message]
    rw [if_neg (str_append_ne_empty_left _
      (str_append_ne_empty_right _ (by decide : (": " : String) ≠ "")))]
    simp [String.append_assoc, hop]
  · simp only [hhr, if_false, hop, ite_not, if_true, GoErr.message]
    rw [if_neg hne]
    simp
  · simp only [hhr, if_false, ite_not, if_neg hop, GoErr.message]
    rw [if_neg (str_append_ne_empty_left _
      (str_append_ne_empty_right _ (by decide : (": " : String) ≠ "")))]
    simp [String.append_assoc, hop]

/-- C8: the Intel AUX error decoder maps device code 67 to the
invalid-device message, 68 to invalid-address, 69 to invalid-size, 70 to
AUX defer and 71 to AUX timeout (each appearing verbatim inside the final
message, whatever the operation name and HRESULT), and every other nonzero
device code produces a message that contains the numeric code itself. -/
theorem auxErr_decode (op : String) (hr : Int) :
    (∃ pre post, (auxErr op hr 67).message = pre ++ "Invalid AUX device" ++ post) ∧
    (∃ pre post, (auxErr op hr 68).message = pre ++ "Invalid AUX address" ++ post) ∧
    (∃ pre post, (auxErr op hr 69).message = pre ++ "Invalid AUX data size" ++ post) ∧
    (∃ pre post, (auxErr op hr 70).message = pre ++ "AUX defer" ++ post) ∧
    (∃ pre post, (auxErr op hr 71).message = pre ++ "AUX timeout" ++ post) ∧
    (∀ code : Int, code ≠ 0 → code ∉ ([67, 68, 69, 70, 71] : List Int) →
      ∃ pre post, (auxErr op hr code).message = pre ++ toString code ++ post) := by
  refine ⟨⟨_, _, auxErr_msg_shape op hr 67 (by decide)⟩,
    ⟨_, _, auxErr_msg_shape op hr 68 (by decide)⟩,
    ⟨_, _, auxErr_msg_shape op hr 69 (by decide)⟩,
    ⟨_, _, auxErr_msg_shape op hr 70 (by decide)⟩,
    ⟨_, _, auxErr_msg_shape op hr 71 (by decide)⟩, ?_⟩
  intro code h0 hnotin
  simp only [List.mem_cons, List.not_mem_nil, or_false, not_or] at hnotin
  obtain ⟨h67, h68, h69, h70, h71⟩ := hnotin
  have hcore : auxErrCore code = "AUX unknown error (" ++ toString code ++ ")" := by
    simp [auxErrCore, h67, h68, h69, h70, h71, h0]
  have hne : auxErrCore code ≠ "" := by
    rw [hcore]
    exact str_append_ne_empty_left _ (str_append_ne_empty_left _ (by decide))
  refine ⟨(if op = "" then "" else op ++ ": ") ++ "AUX unknown error (",
    ")" ++ (if hr < 0 then "; hr=0x" ++ toHex8 (hr % 2 ^ 32).toNat else ""), ?_⟩
  rw [auxErr_msg_shape op hr code hne, hcore]
  simp [String.append_assoc]

/-- Witness for `auxErr_decode`: the unknown device code 99 (with operation
`"ReadDPCD"` and a successful HRESULT) is surfaced inside the message. -/
theorem auxErr_decode_witness :
    ∃ pre post, (auxErr "ReadDPCD" 0 99).message = pre ++ toString (99 : Int) ++ post :=
  (auxErr_decode "ReadDPCD" 0).2.2.2.2.2 99 (by decide) (by decide)

/-- No bytes are transferred before the first call. -/
theorem transferredBefore_zero (calls : List AuxCall) : transferredBefore calls 0 = 0 := rfl

/-- Unfolding of the transferred-bytes count over the first call. -/
theorem transferredBefore_cons (c : AuxCall) (l : List AuxCall) (i : Nat) :
    transferredBefore (c :: l) (i + 1) = c.len + transferredBefore l i := by
  simp [transferredBefore, List.take_succ_cons]

/-- The Intel chunked read loop, against a primitive that always succeeds
with exactly the requested number of bytes: it performs `⌈remaining/16⌉`
calls of size between 1 and 16, each at the running offset, and returns
the concatenation of the chunk results. -/
theorem intelReadDPCDLoop_spec {native : Nat → Nat → Except GoErr (List Nat)}
    (hnative : ∀ off len, ∃ d, native off len = .ok d ∧ d.length = len) :
    ∀ remaining offset, offset < 2 ^ 32 →
    ∃ res calls, intelReadDPCDLoop native offset remaining = .ok (res, calls) ∧
      calls.length = (remaining + 15) / 16 ∧
      (∀ c ∈ calls, 0 < c.len ∧ c.len ≤ 16) ∧
      (∀ (i : Nat) (h : i < calls.length),
        (calls.get ⟨i, h⟩).offset = (offset + transferredBefore calls i) % 2 ^ 32) ∧
      res = (calls.map (okBytes native)).join ∧
      res.length = remaining := by
  intro remaining
  induction remaining using Nat.strong_induction_on with
  | _ remaining ih =>
    intro offset hoff
    by_cases h0 : remaining = 0
    · subst h0
      refine ⟨[], [], ?_, rfl, by simp, ?_, rfl, rfl⟩
      · rw [intelReadDPCDLoop]
        rfl
      · intro i h
        simp at h
    · obtain ⟨d, hd, hdlen⟩ := hnative offset (min remaining 16)
      have hlt : remaining - min remaining 16 < remaining := by omega
      obtain ⟨res', calls', heq', hlen', hbnd', hoffs', hjoin', hreslen'⟩ :=
        ih (remaining - min remaining 16) hlt ((offset + min remaining 16) % 2 ^ 32)
          (Nat.mod_lt _ (by norm_num))
      have hstep : intelReadDPCDLoop native offset remaining =
          .ok (d ++ res', ⟨offset, min remaining 16⟩ :: calls') := by
        rw [intelReadDPCDLoop, if_neg h0]
        simp only [hd, heq']
      refine ⟨d ++ res', ⟨offset, min remaining 16⟩ :: calls', hstep, ?_, ?_, ?_, ?_, ?_⟩
      · simp only [List.length_cons, hlen']
        omega
      · intro c hc
        rcases List.mem_cons.mp hc with rfl | hc'
        · exact ⟨show 0 < min remaining 16 by omega, show min remaining 16 ≤ 16 by omega⟩
        · exact hbnd' c hc'
      · intro i h
        cases i with
        | zero =>
          simp only [List.get_cons_zero, transferredBefore_zero, Nat.add_zero]
          exact (Nat.mod_eq_of_lt hoff).symm
        | succ i' =>
          have h' : i' < calls'.length := by simpa using h
          have hrec := hoffs' i' h'
          simp only [List.get_cons_succ]
          rw [hrec, Nat.mod_add_mod, transferredBefore_cons, ← Nat.add_assoc]
      · simp only [List.map_cons, List.join_cons, hjoin']
        have : okBytes native ⟨offset, min remaining 16⟩ = d := by
          simp [okBytes, hd]
        rw [this]
      · simp only [List.length_append, hdlen, hreslen']
        omega

/-- No bytes are transferred before the first write call. -/
theorem writeTransferredBefore_zero (calls : List WriteCall) :
    writeTransferredBefore calls 0 = 0 := rfl

/-- Unfolding of the transferred-bytes count over the first write call. -/
theorem writeTransferredBefore_cons (c : WriteCall) (l : List WriteCall) (i : Nat) :
    writeTransferredBefore (c :: l) (i + 1) = c.data.length + writeTransferredBefore l i := by
  simp [writeTransferredBefore, List.take_succ_cons]

/-- The Intel chunked write loop, against a primitive that always
succeeds: it performs `⌈len/16⌉` calls whose payloads are the successive
16-byte slices of the input, at the running offset. -/
theorem intelWriteDPCDLoop_ok {native : Nat → List Nat → Option GoErr}
    (hw : ∀ off chunk, native off chunk = none) :
    ∀ (n : Nat) (remaining : List Nat), remaining.length = n →
    ∀ offset, offset < 2 ^ 32 →
    ∃ wcalls, intelWriteDPCDLoop native offset remaining = (none, wcalls) ∧
      wcalls.length = (remaining.length + 15) / 16 ∧
      (∀ c ∈ wcalls, 0 < c.data.length ∧ c.data.length ≤ 16) ∧
      (∀ (i : Nat) (h : i < wcalls.length),
        (wcalls.get ⟨i, h⟩).offset = (offset + writeTransferredBefore wcalls i) % 2 ^ 32) ∧
      (wcalls.map WriteCall.data).join = remaining := by
  intro n
  induction n using Nat.strong_induction_on with
  | _ n ih =>
    intro remaining hn offset hoff
    by_cases hemp : remaining.isEmpty
    · rw [List.isEmpty_iff] at hemp
      subst hemp
      refine ⟨[], ?_, rfl, by simp, ?_, rfl⟩
      · rw [intelWriteDPCDLoop]
        rfl
      · intro i h
        simp at h
    · have hne : remaining ≠ [] := by
        intro h
        rw [h] at hemp
        exact hemp rfl
      have hpos : 0 < remaining.length := List.length_pos.mpr hne
      have htake : (remaining.take 16).length = min 16 remaining.length :=
        List.length_take 16 remaining
      have hdrop : (remaining.drop (remaining.take 16).length).length =
          remaining.length - (remaining.take 16).length := List.length_drop _ remaining
      have hlt : (remaining.drop (remaining.take 16).length).length < n := by
        rw [hdrop, htake]
        omega
      obtain ⟨wcalls', heq', hlen', hbnd', hoffs', hjoin'⟩ :=
        ih _ hlt (remaining.drop (remaining.take 16).length) rfl
          ((offset + (remaining.take 16).length) % 2 ^ 32) (Nat.mod_lt _ (by norm_num))
      have hstep : intelWriteDPCDLoop native offset remaining =
          (none, ⟨offset, remaining.take 16⟩ :: wcalls') := by
        rw [intelWriteDPCDLoop, if_neg (by simpa using hemp)]
        simp only [hw, heq']
      refine ⟨⟨offset, remaining.take 16⟩ :: wcalls', hstep, ?_, ?_, ?_, ?_⟩
      · have hlen2 := hlen'
        rw [List.length_drop, htake] at hlen2
        simp only [List.length_cons, hlen2]
        omega
      · intro c hc
        rcases List.mem_cons.mp hc with rfl | hc'
        · refine ⟨?_, ?_⟩
          · show 0 < (remaining.take 16).length
            rw [htake]; omega
          · show (remaining.take 16).length ≤ 16
            rw [htake]; omega
        · exact hbnd' c hc'
      · intro i h
        cases i with
        | zero =>
          simp only [List.get_cons_zero, writeTransferredBefore_zero, Nat.add_zero]
          exact (Nat.mod_eq_of_lt hoff).symm
        | succ i' =>
          have h' : i' < wcalls'.length := by simpa using h
          have hrec := hoffs' i' h'
          simp only [List.get_cons_succ]
          rw [hrec, Nat.mod_add_mod, writeTransferredBefore_cons, ← Nat.add_assoc]
      · have hdropeq : remaining.drop (remaining.take 16).length = remaining.drop 16 := by
          rw [htake]
          rcases Nat.le_total 16 remaining.length with h | h
          · rw [Nat.min_eq_left h]
          · rw [Nat.min_eq_right h, List.drop_length, List.drop_eq_nil_of_le h]
        simp only [List.map_cons, List.join_cons, hjoin', hdropeq]
        exact List.take_append_drop 16 remaining

/-- The Intel chunked write loop aborts at the first failing chunk: when
it returns an error, every call before the last succeeded, and the last
call failed with exactly the returned error. -/
theorem intelWriteDPCDLoop_abort {native : Nat → List Nat → Option GoErr} :
    ∀ (n : Nat) (remaining : List Nat), remaining.length = n →
    ∀ offset e wcalls,
      intelWriteDPCDLoop native offset remaining = (some e, wcalls) →
      wcalls ≠ [] ∧ (∀ c ∈ wcalls.dropLast, native c.offset c.data = none) ∧
      ∃ lastc, wcalls.getLast? = some lastc ∧ native lastc.offset lastc.data = some e := by
  intro n
  induction n using Nat.strong_induction_on with
  | _ n ih =>
    intro remaining hn offset e wcalls heq
    by_cases hemp : remaining.isEmpty
    · rw [intelWriteDPCDLoop, if_pos hemp] at heq
      cases heq
    · rw [intelWriteDPCDLoop, if_neg hemp] at heq
      rcases hnat : native offset (remaining.take 16) with _ | e'
      · simp only [hnat] at heq
        have hfst : (intelWriteDPCDLoop native
            ((offset + (remaining.take 16).length) % 2 ^ 32)
            (remaining.drop (remaining.take 16).length)).1 = some e :=
          congrArg Prod.fst heq
        have hsnd : wcalls = ⟨offset, remaining.take 16⟩ ::
            (intelWriteDPCDLoop native ((offset + (remaining.take 16).length) % 2 ^ 32)
              (remaining.drop (remaining.take 16).length)).2 :=
          (congrArg Prod.snd heq).symm
        have hne : remaining ≠ [] := by
          intro h
          rw [h] at hemp
          exact hemp rfl
        have hpos : 0 < remaining.length := List.length_pos.mpr hne
        have htake : (remaining.take 16).length = min 16 remaining.length :=
          List.length_take 16 remaining
        have hlt : (remaining.drop (remaining.take 16).length).length < n := by
          rw [List.length_drop, htake]
          omega
        obtain ⟨hne', hpre', hlast'⟩ :=
          ih _ hlt (remaining.drop (remaining.take 16).length) rfl
            ((offset + (remaining.take 16).length) % 2 ^ 32) e _
            (Prod.ext hfst rfl)
        subst hsnd
        refine ⟨by simp, ?_, ?_⟩
        · intro c hc
          rw [List.dropLast_cons_of_ne_nil hne'] at hc
          rcases List.mem_cons.mp hc with rfl | hc'
          · exact hnat
          · exact hpre' c hc'
        · obtain ⟨lastc, hl1, hl2⟩ := hlast'
          obtain ⟨b, l', hbl⟩ := List.exists_cons_of_ne_nil hne'
          rw [hbl] at hl1
          refine ⟨lastc, ?_, hl2⟩
          simp only [hbl, List.getLast?_cons_cons]
          exact hl1
      · simp only [hnat] at heq
        have hfsome : (some e' : Option GoErr) = some e := congrArg Prod.fst heq
        obtain rfl : e' = e := by injection hfsome
        have hw : wcalls = [⟨offset, remaining.take 16⟩] := (congrArg Prod.snd heq).symm
        subst hw
        exact ⟨by simp, by simp, ⟨offset, remaining.take 16⟩, by simp, hnat⟩

/-- C1: the Intel backends chunk DPCD transactions in 16-byte units.  When
every single-chunk native read succeeds with exactly the requested bytes,
`ReadDPCD` (identical on the igfx and IGCL drivers) performs exactly
`⌈L/16⌉` calls of size between 1 and 16, each at offset `A` plus the bytes
already transferred (as a `uint32`), and returns the concatenation of the
chunk results, of length `L`.  `WriteDPCD` chunks its payload the same way
when every chunk succeeds, and on failure aborts at the first failing
chunk, returning that chunk's error. -/
theorem intelDPCD_chunking
    (nativeR : Nat → Nat → Except GoErr (List Nat))
    (nativeW : Nat → List Nat → Option GoErr)
    (A L : Nat) (data : List Nat) (hA : A < 2 ^ 32) (hL : 0 < L)
    (hnR : ∀ off len, ∃ d, nativeR off len = .ok d ∧ d.length = len) :
    (∃ res calls,
      intelDriver_ReadDPCD nativeR A L = .ok (res, calls) ∧
      intelIGCLDriver_ReadDPCD nativeR A L = .ok (res, calls) ∧
      calls.length = (L + 15) / 16 ∧
      (∀ c ∈ calls, 0 < c.len ∧ c.len ≤ 16) ∧
      (∀ (i : Nat) (h : i < calls.length),
        (calls.get ⟨i, h⟩).offset = (A + transferredBefore calls i) % 2 ^ 32) ∧
      res = (calls.map (okBytes nativeR)).join ∧
      res.length = L) ∧
    ((∀ off chunk, nativeW off chunk = none) →
      ∃ wcalls,
        intelDriver_WriteDPCD nativeW A data = (none, wcalls) ∧
        intelIGCLDriver_WriteDPCD nativeW A data = (none, wcalls) ∧
        wcalls.length = (data.length + 15) / 16 ∧
        (∀ c ∈ wcalls, 0 < c.data.length ∧ c.data.length ≤ 16) ∧
        (∀ (i : Nat) (h : i < wcalls.length),
          (wcalls.get ⟨i, h⟩).offset = (A + writeTransferredBefore wcalls i) % 2 ^ 32) ∧
        (wcalls.map WriteCall.data).join = data) ∧
    (∀ e wcalls, intelDriver_WriteDPCD nativeW A data = (some e, wcalls) →
      intelIGCLDriver_WriteDPCD nativeW A data = (some e, wcalls) ∧
      wcalls ≠ [] ∧ (∀ c ∈ wcalls.dropLast, nativeW c.offset c.data = none) ∧
      ∃ lastc, wcalls.getLast? = some lastc ∧ nativeW lastc.offset lastc.data = some e) := by
  refine ⟨?_, ?_, ?_⟩
  · obtain ⟨res, calls, heq, h1, h2, h3, h4, h5⟩ := intelReadDPCDLoop_spec hnR L A hA
    refine ⟨res, calls, ?_, ?_, h1, h2, h3, h4, h5⟩
    · rw [intelDriver_ReadDPCD, if_neg (by omega)]
      exact heq
    · rw [intelIGCLDriver_ReadDPCD, intelDriver_ReadDPCD, if_neg (by omega)]
      exact heq
  · intro hw
    by_cases hemp : data.isEmpty
    · rw [List.isEmpty_iff] at hemp
      subst hemp
      exact ⟨[], rfl, rfl, rfl, by simp, by intro i h; simp at h, rfl⟩
    · obtain ⟨wcalls, heq, h1, h2, h3, h4⟩ :=
        intelWriteDPCDLoop_ok hw data.length data rfl A hA
      refine ⟨wcalls, ?_, ?_, h1, h2, h3, h4⟩
      · rw [intelDriver_WriteDPCD, if_neg hemp]
        exact heq
      · rw [intelIGCLDriver_WriteDPCD, intelDriver_WriteDPCD, if_neg hemp]
        exact heq
  · intro e wcalls heq
    by_cases hemp : data.isEmpty
    · rw [intelDriver_WriteDPCD, if_pos hemp] at heq
      exact absurd (congrArg Prod.fst heq) (by simp)
    · rw [intelDriver_WriteDPCD, if_neg hemp] at heq
      obtain ⟨h1, h2, h3⟩ := intelWriteDPCDLoop_abort data.length data rfl A e wcalls heq
      refine ⟨?_, h1, h2, h3⟩
      rw [intelIGCLDriver_WriteDPCD, intelDriver_WriteDPCD, if_neg hemp]
      exact heq

/-- Witness for `intelDPCD_chunking`: a 20-byte read from address 256 with
an always-succeeding oracle, and a 3-byte write with an always-succeeding
write oracle. -/
theorem intelDPCD_chunking_witness :
    (∃ res calls,
      intelDriver_ReadDPCD (fun _ len => Except.ok (List.range len)) 256 20 =
        .ok (res, calls) ∧
      intelIGCLDriver_ReadDPCD (fun _ len => Except.ok (List.range len)) 256 20 =
        .ok (res, calls) ∧
      calls.length = (20 + 15) / 16 ∧
      (∀ c ∈ calls, 0 < c.len ∧ c.len ≤ 16) ∧
      (∀ (i : Nat) (h : i < calls.length),
        (calls.get ⟨i, h⟩).offset = (256 + transferredBefore calls i) % 2 ^ 32) ∧
      res = (calls.map (okBytes (fun _ len => Except.ok (List.range len)))).join ∧
      res.length = 20) ∧
    ((∀ off chunk, (fun (_ : Nat) (_ : List Nat) => (none : Option GoErr)) off chunk = none) →
      ∃ wcalls,
        intelDriver_WriteDPCD (fun _ _ => none) 256 [1, 2, 3] = (none, wcalls) ∧
        intelIGCLDriver_WriteDPCD (fun _ _ => none) 256 [1, 2, 3] = (none, wcalls) ∧
        wcalls.length = (([1, 2, 3] : List Nat).length + 15) / 16 ∧
        (∀ c ∈ wcalls, 0 < c.data.length ∧ c.data.length ≤ 16) ∧
        (∀ (i : Nat) (h : i < wcalls.length),
          (wcalls.get ⟨i, h⟩).offset = (256 + writeTransferredBefore wcalls i) % 2 ^ 32) ∧
        (wcalls.map WriteCall.data).join = [1, 2, 3]) ∧
    (∀ e wcalls,
      intelDriver_WriteDPCD (fun _ _ => none) 256 [1, 2, 3] = (some e, wcalls) →
      intelIGCLDriver_WriteDPCD (fun _ _ => none) 256 [1, 2, 3] = (some e, wcalls) ∧
      wcalls ≠ [] ∧
      (∀ c ∈ wcalls.dropLast,
        (fun (_ : Nat) (_ : List Nat) => (none : Option GoErr)) c.offset c.data = none) ∧
      ∃ lastc, wcalls.getLast? = some lastc ∧
        (fun (_ : Nat) (_ : List Nat) => (none : Option GoErr)) lastc.offset lastc.data =
          some e) :=
  intelDPCD_chunking (fun _ len => Except.ok (List.range len)) (fun _ _ => none)
    256 20 [1, 2, 3] (by norm_num) (by norm_num)
    (fun off len => ⟨List.range len, rfl, List.length_range len⟩)
